import Mathlib

/-!
Shallow embedding of the retrieval core of the legal-chatbot repository
(`backend/rag_engine/rag_core.py` and `backend/rag_engine/relevance_reranker.py`).

Conventions of the embedding:
* Python strings are Lean `String`s; character-level work happens on `List Char`.
* Python floats (FAISS distances, confidences, scores) are modelled as `ℚ`.
* The FAISS index is modelled as `Option (List V)` for an abstract vector type
  `V`; only the vector count and the append behaviour of `faiss.Index.add` are
  observable to the code under verification.  The sentence-transformer embedder
  is an abstract parameter `embed : String → V`.
* `index.search` results (the `zip(distances[0], indices[0])` pairs) are passed
  in as an explicit `List (ℚ × Int)` parameter, since FAISS is external.
* Python regular expressions are transcribed as explicit scanners over
  `List Char`, with the ASCII reading of `\s`, `\w` and `str.lower()`.
* File I/O is modelled by an explicit file-system record whose entries are
  `Option (Except Unit _)`: `none` is a missing file, `Except.error ()` a read
  or parse failure (an exception in Python), `Except.ok` a parsed value.
-/

/-! ### Character classes and low-level string helpers -/

/-- ASCII reading of the Python regex class `\s` (also used for `str.strip`). -/
def isPySpace (c : Char) : Bool :=
  c = ' ' || c = '\t' || c = '\n' || c = '\r' || c = '\x0b' || c = '\x0c'

/-- ASCII reading of the Python regex class `\w`. -/
def isWordChar (c : Char) : Bool :=
  ('a' ≤ c && c ≤ 'z') || ('A' ≤ c && c ≤ 'Z') || ('0' ≤ c && c ≤ '9') || c = '_'

/-- Characters matched by the regex class `[a-z0-9]`. -/
def isLowerAlnum (c : Char) : Bool :=
  ('a' ≤ c && c ≤ 'z') || ('0' ≤ c && c ≤ '9')

/-- Characters matched by the regex class `[0-9a-z.]` (section numbers). -/
def isSectionNumChar (c : Char) : Bool :=
  isLowerAlnum c || c = '.'

/-- Characters matched by the regex class `[\w\s,&.()-]` (act names). -/
def isActNameChar (c : Char) : Bool :=
  isWordChar c || isPySpace c || c = ',' || c = '&' || c = '.' || c = '(' || c = ')' || c = '-'

/-- Python `str.strip()` on a character list (ASCII whitespace). -/
def pyStrip (l : List Char) : List Char :=
  ((l.dropWhile isPySpace).reverse.dropWhile isPySpace).reverse

/-- Python `str.strip()` on a string. -/
def pyStripS (s : String) : String := String.mk (pyStrip s.data)

/-- Python `str.lower()` (ASCII letters). -/
def pyLower (l : List Char) : List Char := l.map Char.toLower

/-- Python `str.lower()` on a string. -/
def pyLowerS (s : String) : String := String.mk (pyLower s.data)

/-- Python `str.rstrip(chars)`: remove trailing characters drawn from `cs`. -/
def pyRstrip (cs : List Char) (l : List Char) : List Char :=
  (l.reverse.dropWhile (fun c => cs.contains c)).reverse

/-- `pat` occurs as a contiguous sublist of `hay` (Python `pat in hay`). -/
def listContainsSub (pat : List Char) : List Char → Bool
  | [] => pat.isEmpty
  | c :: rest => pat.isPrefixOf (c :: rest) || listContainsSub pat rest

/-- Python substring test `pat in hay` on strings. -/
def containsSub (hay pat : String) : Bool := listContainsSub pat.data hay.data

/-- Python `str.replace(pat, repl)`: all non-overlapping occurrences, left to
right, written with explicit fuel so that it is structurally recursive (every
step consumes at least one character, so `l.length` fuel suffices).  With
`pat = []` the input is returned unchanged; all call sites use non-empty
patterns. -/
def replaceAllF (pat repl : List Char) : Nat → List Char → List Char
  | _, [] => []
  | 0, l => l
  | fuel + 1, c :: rest =>
    if pat ≠ [] ∧ pat.isPrefixOf (c :: rest) then
      repl ++ replaceAllF pat repl fuel ((c :: rest).drop pat.length)
    else
      c :: replaceAllF pat repl fuel rest

/-- Python `str.replace(pat, repl)` on character lists. -/
def replaceAll (pat repl : List Char) (l : List Char) : List Char :=
  replaceAllF pat repl l.length l

/-- Python `str.replace` on strings. -/
def replaceAllS (s pat repl : String) : String :=
  String.mk (replaceAll pat.data repl.data s.data)

/-- Collapse each maximal run of whitespace to a single space character:
the effect of `re.sub(r"\s+", " ", ·)`. -/
def collapseWs : List Char → List Char
  | [] => []
  | [c] => [if isPySpace c then ' ' else c]
  | c :: d :: rest =>
    if isPySpace c && isPySpace d then collapseWs (d :: rest)
    else (if isPySpace c then ' ' else c) :: collapseWs (d :: rest)

/-- Maximal runs of `[a-z0-9]` characters, as `re.findall(r"[a-z0-9]+", ·)`,
with explicit fuel (each step consumes at least one character). -/
def tokenRunsF : Nat → List Char → List String
  | _, [] => []
  | 0, _ => []
  | fuel + 1, c :: rest =>
    if isLowerAlnum c then
      String.mk ((c :: rest).takeWhile isLowerAlnum) :: tokenRunsF fuel ((c :: rest).dropWhile isLowerAlnum)
    else
      tokenRunsF fuel rest

/-- `re.findall(r"[a-z0-9]+", l)`. -/
def tokenRuns (l : List Char) : List String := tokenRunsF l.length l

/-- Word-boundary substitution: `re.sub(r"\bPAT\b", repl, ·)` for a pattern
made of word characters, with explicit fuel (each step consumes at least one
character).  `prev` is the character just before the current scan position in
the original string (`none` at the start). -/
def wbSubF (pat repl : List Char) : Nat → List Char → Option Char → List Char
  | _, [], _ => []
  | 0, l, _ => l
  | fuel + 1, c :: rest, prev =>
    if h : pat ≠ [] ∧ pat.isPrefixOf (c :: rest) ∧
        (∀ p ∈ prev, ¬ isWordChar p) ∧
        (∀ q ∈ ((c :: rest).drop pat.length).head?, ¬ isWordChar q) then
      repl ++ wbSubF pat repl fuel ((c :: rest).drop pat.length) (some (pat.getLast h.1))
    else
      c :: wbSubF pat repl fuel rest (some c)

/-- `re.sub(r"\bPAT\b", repl, l)` on character lists. -/
def wbSub (pat repl : List Char) (l : List Char) (prev : Option Char) : List Char :=
  wbSubF pat repl l.length l prev

/-- `re.sub(r"\bPAT\b", repl, s)` on strings. -/
def wbSubS (s pat repl : String) : String :=
  String.mk (wbSub pat.data repl.data s.data none)

/-! ### Global store state (`index`, `chunks_store`, `chunk_sources`) -/

/-- The three parallel module-level stores of `rag_core.py`.  `index = none`
models `index is None`; `index = some vs` models a FAISS index holding the
vectors `vs` (so `ntotal = vs.length`). -/
structure Store (V : Type) where
  index : Option (List V)
  chunks_store : List String
  chunk_sources : List String
deriving DecidableEq

/-- The state at process start: no index, empty parallel stores. -/
def emptyStore (V : Type) : Store V := ⟨none, [], []⟩

/-- `index.ntotal`, taken as 0 when `index is None`. -/
def ntotal {V : Type} (idx : Option (List V)) : Nat :=
  match idx with
  | none => 0
  | some vs => vs.length

/-- The chunk-cleaning step shared by `build_index` and `add_chunks`:
`[chunk.strip() for chunk in chunks if chunk and chunk.strip()]`. -/
def cleanChunks (chunks : List String) : List String :=
  (chunks.filter (fun c => c ≠ "" && pyStripS c ≠ "")).map pyStripS

/-- `build_index(chunks, source)` (rag_core.py lines 397-473).  Discards the
previous state; on empty cleaned input resets all three stores; otherwise
embeds every cleaned chunk and builds a fresh index.  (`persist` only
triggers `save_index`, which does not change the in-memory state.) -/
def build_index {V : Type} (embed : String → V) (chunks : List String) (source : String)
    (_s : Store V) : Store V :=
  let cleaned := cleanChunks chunks
  if cleaned.isEmpty then
    ⟨none, [], []⟩
  else
    ⟨some (cleaned.map embed), cleaned, List.replicate cleaned.length source⟩

/-- `add_chunks(chunks, source)` (rag_core.py lines 478-557).  Returns the
count of newly added chunks paired with the updated store.  When no usable
index exists it delegates to `build_index`; otherwise it de-duplicates
against `chunks_store` by exact string equality and appends. -/
def add_chunks {V : Type} (embed : String → V) (chunks : List String) (source : String)
    (s : Store V) : Nat × Store V :=
  let cleaned := cleanChunks chunks
  if cleaned.isEmpty then (0, s)
  else if s.index.isNone || ntotal s.index == 0 || s.chunks_store.isEmpty then
    (cleaned.length, build_index embed cleaned source s)
  else
    let newChunks := cleaned.filter (fun c => !(s.chunks_store.contains c))
    if newChunks.isEmpty then (0, s)
    else
      (newChunks.length,
        ⟨some (s.index.getD [] ++ newChunks.map embed),
          s.chunks_store ++ newChunks,
          s.chunk_sources ++ List.replicate newChunks.length source⟩)

/-- One mutating call against the store: `build_index` or `add_chunks`. -/
inductive StoreOp where
  | build (chunks : List String) (source : String)
  | add (chunks : List String) (source : String)

/-- Apply one `StoreOp`. -/
def applyStoreOp {V : Type} (embed : String → V) (s : Store V) : StoreOp → Store V
  | .build chunks source => build_index embed chunks source s
  | .add chunks source => (add_chunks embed chunks source s).2

/-- Apply a sequence of `StoreOp`s left to right. -/
def applyStoreOps {V : Type} (embed : String → V) (ops : List StoreOp) (s : Store V) : Store V :=
  ops.foldl (applyStoreOp embed) s

/-- The parallel-store invariant: chunk texts, source tags and index vectors
all have the same count (`len(chunks_store) == len(chunk_sources) ==
index.ntotal`, with `ntotal` read as 0 when `index is None`). -/
def aligned {V : Type} (s : Store V) : Prop :=
  s.chunks_store.length = s.chunk_sources.length ∧ s.chunks_store.length = ntotal s.index

/-! ### Confidence constants (rag_core.py lines 65-73, 97) -/

/-- `MIN_CONFIDENCE_SCORE = 0.30`. -/
def MIN_CONFIDENCE_SCORE : ℚ := 30 / 100

/-- `LEGAL_REFERENCE_CONFIDENCE_THRESHOLD = 0.25`. -/
def LEGAL_REFERENCE_CONFIDENCE_THRESHOLD : ℚ := 25 / 100

/-- `MAX_RETRIEVAL_CANDIDATES = 50`. -/
def MAX_RETRIEVAL_CANDIDATES : Nat := 50

/-- `INDEX_SCHEMA_VERSION = 2`. -/
def INDEX_SCHEMA_VERSION : Int := 2

/-- `round(x, 2)` on a rational confidence: two-decimal rounding. -/
def round2 (x : ℚ) : ℚ := (round (x * 100) : ℤ) / 100

/-! ### Legal-reference extraction (`_extract_legal_reference`, lines 245-311)

The regex `(section|clause|article)\s+([0-9a-z.]+)` is transcribed as a
leftmost scan; the three alternatives start with distinct letters, so at a
given position at most one can match, and the `\s+`/`[0-9a-z.]+` classes are
disjoint, so greedy matching needs no backtracking. -/

/-- Try `KW\s+[0-9a-z.]+` at the current position; `title` is
`kw.title()` (`"section"` becomes `"Section"`). -/
def trySectionKw (kw : List Char) (title : String) (l : List Char) : Option String :=
  if kw.isPrefixOf l then
    let rest := l.drop kw.length
    let ws := rest.takeWhile isPySpace
    if ws.isEmpty then none
    else
      let num := (rest.drop ws.length).takeWhile isSectionNumChar
      if num.isEmpty then none
      else some (title ++ " " ++ String.mk num)
  else none

/-- `re.search(r"(section|clause|article)\s+([0-9a-z.]+)", ·)` on the
lower-cased query, returning the formatted `section_ref`. -/
def searchSectionRef : List Char → Option String
  | [] => none
  | c :: rest =>
    match trySectionKw "section".data "Section" (c :: rest) <|>
          trySectionKw "clause".data "Clause" (c :: rest) <|>
          trySectionKw "article".data "Article" (c :: rest) with
    | some r => some r
    | none => searchSectionRef rest

/-- The lazy capture group `([\w\s,&.()-]+?)(?:\?|$)`: consume at least one
act-name character, stopping at the earliest following `?` or end of input;
fail on any other character.  `acc` holds the consumed characters reversed. -/
def lazyActCapture : List Char → List Char → Option (List Char)
  | [], acc => if acc.isEmpty then none else some acc.reverse
  | c :: rest, acc =>
    if !acc.isEmpty && c = '?' then some acc.reverse
    else if isActNameChar c then lazyActCapture rest (c :: acc)
    else none

/-- Greedy `\s+` with backtracking: try dropping `w` whitespace characters
from `l` for `w = wsLen, wsLen-1, …, 1` and run the continuation. -/
def actWsBacktrack (l : List Char) (cont : List Char → Option (List Char)) :
    Nat → Option (List Char)
  | 0 => none
  | w + 1 =>
    match cont (l.drop (w + 1)) with
    | some cap => some cap
    | none => actWsBacktrack l cont w

/-- After the outer `\s+`: the optional greedy group `(?:the\s+)?` followed by
the lazy capture. -/
def actAfterWs (l : List Char) : Option (List Char) :=
  match
    (if "the".data.isPrefixOf l then
      let l2 := l.drop 3
      actWsBacktrack l2 (fun l3 => lazyActCapture l3 []) (l2.takeWhile isPySpace).length
    else none) with
  | some cap => some cap
  | none => lazyActCapture l []

/-- `(?:of|in|from)\s+(?:the\s+)?([\w\s,&.()-]+?)(?:\?|$)` matched at one
position (just after the keyword): outer `\s+` greedy with backtracking. -/
def matchActAfterKw (l : List Char) : Option (List Char) :=
  actWsBacktrack l actAfterWs (l.takeWhile isPySpace).length

/-- `re.search` for the act-name pattern: leftmost position wins; the three
keywords start with distinct letters, so at most one applies per position. -/
def searchActName : List Char → Option (List Char)
  | [] => none
  | c :: rest =>
    match (if "of".data.isPrefixOf (c :: rest) then matchActAfterKw ((c :: rest).drop 2) else none) <|>
          (if "in".data.isPrefixOf (c :: rest) then matchActAfterKw ((c :: rest).drop 2) else none) <|>
          (if "from".data.isPrefixOf (c :: rest) then matchActAfterKw ((c :: rest).drop 4) else none) with
    | some cap => some cap
    | none => searchActName rest

/-- `act_match.group(1).strip().rstrip('.,?')` then
`.replace(' act', '').replace(' law', '').strip()`. -/
def cleanActName (cap : List Char) : String :=
  let raw := pyRstrip ['.', ',', '?'] (pyStrip cap)
  pyStripS (replaceAllS (replaceAllS (String.mk raw) " act" "") " law" "")

/-- `_extract_legal_reference(query)` (lines 245-311): returns
`(section_ref, act_name)`, either of which may be absent. -/
def _extract_legal_reference (query : String) : Option String × Option String :=
  let normalized := pyStrip (pyLower query.data)
  match searchSectionRef normalized with
  | none => (none, none)
  | some sectionRef =>
    match searchActName normalized with
    | none => (some sectionRef, none)
    | some cap => (some sectionRef, some (cleanActName cap))

/-! ### Legal-reference matching (`_find_legal_reference_match`, lines 317-392) -/

/-- A tier-1 match: the dict
`{"clause": …, "source": …, "retrieval_confidence": 0.95}`. -/
structure RefMatch where
  clause : String
  source : String
  retrieval_confidence : ℚ
deriving DecidableEq

/-- Whether a stored chunk qualifies for the extracted legal reference: it
contains the section reference (case-insensitively) and, when a non-empty act
name was extracted, also one of the act-name patterns (full name, name with
spaces removed, or first five characters). -/
def refMatchesChunk (sectionRef : String) (actName : Option String) (chunk : String) : Bool :=
  let chunkLower := pyLowerS chunk
  containsSub chunkLower (pyLowerS sectionRef) &&
    (match actName with
     | none => true
     | some a =>
       if a = "" then true
       else
         let al := pyLowerS a
         containsSub chunkLower al ||
         containsSub chunkLower (replaceAllS al " " "") ||
         containsSub chunkLower (String.mk (al.data.take 5)))

/-- The scan over `enumerate(chunks_store)`: first qualifying chunk wins, its
source looked up with the `idx < len(chunk_sources)` guard. -/
def findRefLoop (sectionRef : String) (actName : Option String) (sources : List String) :
    List String → Nat → Option RefMatch
  | [], _ => none
  | chunk :: rest, idx =>
    if refMatchesChunk sectionRef actName chunk then
      some ⟨chunk, sources.getD idx "unknown", 95 / 100⟩
    else findRefLoop sectionRef actName sources rest (idx + 1)

/-- `_find_legal_reference_match(query)` (lines 317-392). -/
def _find_legal_reference_match {V : Type} (s : Store V) (query : String) : Option RefMatch :=
  match _extract_legal_reference query with
  | (none, _) => none
  | (some sectionRef, actName) => findRefLoop sectionRef actName s.chunk_sources s.chunks_store 0

/-! ### Lookup-text normalisation and the wrapped `Question:`/`Clause:` format
(`_normalize_lookup_text` lines 929-973, `_extract_wrapped_question_and_clause`
lines 978-1032) -/

/-- `_normalize_lookup_text(value)`: lower-case, strip, replace every
non-`[a-z0-9\s]` character by a space, collapse whitespace runs. -/
def _normalize_lookup_text (value : String) : String :=
  let lowered := pyStrip (pyLower value.data)
  let replaced := lowered.map (fun c => if !(isLowerAlnum c || isPySpace c) then ' ' else c)
  String.mk (collapseWs replaced)

/-- Case-insensitive literal match of the (lower-case) pattern at the head of
`l`, as the `re.IGNORECASE` flag reads a literal. -/
def ciIsPrefix (pat : List Char) (l : List Char) : Bool :=
  pat == pyLower (l.take pat.length)

/-- Find the first `\n` immediately followed by a case-insensitive `Clause:`;
return the characters before it and the characters after the marker.  This is
where the lazy group `(.*?)\s*\n` of the wrapped-format regex ends. -/
def splitNlClause : List Char → Option (List Char × List Char)
  | [] => none
  | c :: rest =>
    if c = '\n' && ciIsPrefix "clause:".data rest then
      some ([], rest.drop 7)
    else
      match splitNlClause rest with
      | some (before, after) => some (c :: before, after)
      | none => none

/-- `_extract_wrapped_question_and_clause(text)`: match
`\s*Question:\s*(.*?)\s*\nClause:\s*(.*)\Z` (IGNORECASE, DOTALL) and return
the two stripped groups, or `(none, none)` when the format does not match.
The `\s*` paddings around the lazy group are absorbed by the final
`.strip()` calls, so the split happens at the first `\n` + `Clause:`. -/
def _extract_wrapped_question_and_clause (text : String) : Option String × Option String :=
  let afterLeadWs := text.data.dropWhile isPySpace
  if ciIsPrefix "question:".data afterLeadWs then
    match splitNlClause (afterLeadWs.drop 9) with
    | none => (none, none)
    | some (before, after) => (some (String.mk (pyStrip before)), some (String.mk (pyStrip after)))
  else (none, none)

/-! ### `difflib.SequenceMatcher(None, a, b).ratio()`

Transcribed from CPython `difflib.py`: Ratcliff-Obershelp matching-block
decomposition.  `__chain_b` builds `b2j` and removes from it first the junk
characters (`bjunk`, EMPTY when `isjunk` is `None`, as in `_fuzzy_match` and
`_find_exact_question_match`) and then, when `len(b) >= 200`, the autojunk
popular characters (`bpopular`).  `find_longest_match` is realised as the
maximum over all start positions of the length of the common run readable
through the surviving `b2j` characters (the same candidate set as the
`b2j`/`j2len` chains, with the identical tie-break: smallest `a` position,
then smallest `b` position), followed by the four edge-extension loops.
Those loops consult only the junk set `bjunk` — not the popular set — so
with `isjunk = None` the non-junk extensions pass through popular characters
and the junk extensions never fire. -/

/-- The `autojunk` popular elements of `b`: when `len(b) >= 200`, characters
occurring more than `len(b) // 100 + 1` times. -/
def popularChars (b : List Char) : List Char :=
  if 200 ≤ b.length then
    (b.dedup).filter (fun c => b.length / 100 + 1 < b.count c)
  else []

/-- Length of the common run at the heads of `a` and `b`, restricted to
non-popular `b` characters (the chains visible to the `b2j`/`j2len` loop). -/
def runLenNP (pop : List Char) : List Char → List Char → Nat
  | x :: xs, y :: ys => if x = y ∧ ¬ pop.contains y then runLenNP pop xs ys + 1 else 0
  | _, _ => 0

/-- The core maximisation of `find_longest_match`: the best `(i, j, size)`
with `size` maximal, ties broken by smallest `i`, then smallest `j`. -/
def flmCore (pop : List Char) (a b : List Char) : Nat × Nat × Nat :=
  (List.range a.length).foldl
    (fun best i =>
      (List.range b.length).foldl
        (fun best j =>
          let k := runLenNP pop (a.drop i) (b.drop j)
          if best.2.2 < k then (i, j, k) else best)
        best)
    (0, 0, 0)

/-- One leftward edge extension: extend the block `(i, j, k)` while the
characters just before it are equal and satisfy `keep` on the `b` side.
Structural recursion on `i`. -/
def extLeft (keep : Char → Bool) (a b : List Char) : Nat → Nat → Nat → Nat × Nat × Nat
  | 0, j, k => (0, j, k)
  | i + 1, 0, k => (i + 1, 0, k)
  | i + 1, j + 1, k =>
    match a.get? i, b.get? j with
    | some x, some y =>
      if x = y ∧ keep y then extLeft keep a b i j (k + 1) else (i + 1, j + 1, k)
    | _, _ => (i + 1, j + 1, k)

/-- One rightward edge extension with explicit fuel (bounded by `a.length`). -/
def extRight (keep : Char → Bool) (a b : List Char) (i j : Nat) : Nat → Nat → Nat
  | k, 0 => k
  | k, fuel + 1 =>
    match a.get? (i + k), b.get? (j + k) with
    | some x, some y =>
      if x = y ∧ keep y then extRight keep a b i j (k + 1) fuel else k
    | _, _ => k

/-- `SequenceMatcher.find_longest_match` over whole lists: the core
maximisation over the `b2j` chains (which exclude junk and popular
characters), followed by the four edge-extension loops in the order of the
CPython source.  The extension loops test `isbjunk = self.bjunk.__contains__`
only: the first pair extends while the adjacent `b` character is NOT junk,
the second pair while it IS junk.  The popular set plays no role here.
`ratioQ` instantiates `bjunk := []`, since `SequenceMatcher(None, a, b)` has
an empty junk set. -/
def find_longest_match (bjunk pop : List Char) (a b : List Char) : Nat × Nat × Nat :=
  let best := flmCore pop a b
  let best := extLeft (fun y => ¬ bjunk.contains y) a b best.1 best.2.1 best.2.2
  let best := (best.1, best.2.1, extRight (fun y => ¬ bjunk.contains y) a b best.1 best.2.1 best.2.2 a.length)
  let best := extLeft (fun y => bjunk.contains y) a b best.1 best.2.1 best.2.2
  (best.1, best.2.1, extRight (fun y => bjunk.contains y) a b best.1 best.2.1 best.2.2 a.length)

/-- Total size of the matching blocks (`sum(size for _, _, size in
get_matching_blocks())`), by the recursive block decomposition.  The fuel is
an upper bound on the recursion depth; each recursive level strictly shrinks
`a.length + b.length`. -/
def matchingTotal (bjunk pop : List Char) : Nat → List Char → List Char → Nat
  | 0, _, _ => 0
  | fuel + 1, a, b =>
    match find_longest_match bjunk pop a b with
    | (_, _, 0) => 0
    | (i, j, k) =>
      k + matchingTotal bjunk pop fuel (a.take i) (b.take j)
        + matchingTotal bjunk pop fuel (a.drop (i + k)) (b.drop (j + k))

/-- `SequenceMatcher(None, a, b).ratio()` as an exact rational:
`2 * M / (len(a) + len(b))`, and 1 when both inputs are empty.  With
`isjunk = None` the junk set is empty, so `bjunk := []`; the autojunk
popular set still prunes the `b2j` chains when `len(b) >= 200`. -/
def ratioQ (sa sb : String) : ℚ :=
  let a := sa.data
  let b := sb.data
  let m := matchingTotal [] (popularChars b) (a.length + b.length + 1) a b
  if a.length + b.length = 0 then 1
  else (2 * m : ℚ) / (a.length + b.length)

/-! ### Exact/fuzzy question matching (`_find_exact_question_match`,
lines 1038-1124) -/

/-- The question portion the loop considers for a chunk: the extracted
wrapped question when present and non-empty (`if not question_text:
continue`). -/
def wrappedQuestion (chunk : String) : Option String :=
  match _extract_wrapped_question_and_clause chunk with
  | (some q, _) => if q = "" then none else some q
  | (none, _) => none

/-- The fuzzy score a chunk contributes against the normalised query, when it
has a usable question portion. -/
def chunkQuestionScore (nq : String) (chunk : String) : Option ℚ :=
  (wrappedQuestion chunk).map (fun q => ratioQ nq (_normalize_lookup_text q))

/-- The scan over `chunks_store`: exact normalised match returns immediately;
otherwise track the best fuzzy score, starting from the 0.85 threshold and
updating only on strict improvement (`if score > best_score`). -/
def findExactLoop (nq : String) : List String → Option String → ℚ → Option String
  | [], best, _ => best
  | chunk :: rest, best, bestScore =>
    match wrappedQuestion chunk with
    | none => findExactLoop nq rest best bestScore
    | some q =>
      if _normalize_lookup_text q = nq then some chunk
      else
        let score := ratioQ nq (_normalize_lookup_text q)
        if bestScore < score then findExactLoop nq rest (some chunk) score
        else findExactLoop nq rest best bestScore

/-- `_find_exact_question_match(query)` (lines 1038-1124). -/
def _find_exact_question_match {V : Type} (s : Store V) (query : String) : Option String :=
  let nq := _normalize_lookup_text query
  if nq = "" then none
  else findExactLoop nq s.chunks_store none (85 / 100)

/-! ### Query-term extraction (`STOP_WORDS` lines 108-111,
`QUERY_PHRASE_EXPANSIONS` lines 118-127, `LEGAL_SYNONYMS` lines 138-149,
`_correct_query_spelling` lines 154-197, `_extract_query_terms`
lines 846-924) -/

/-- The stop-word set. -/
def STOP_WORDS : List String :=
  ["the", "a", "an", "and", "or", "to", "of", "in", "on", "for", "by", "with",
   "is", "are", "was", "were", "what", "which", "who", "whom", "when", "where",
   "why", "how", "does", "do", "did", "about", "under", "law"]

/-- The expansions of the one phrase key `"it law"`. -/
def IT_LAW_EXPANSIONS : List String :=
  ["information technology", "information technology act", "cyber",
   "electronic record", "digital signature", "computer"]

/-- `QUERY_PHRASE_EXPANSIONS` in insertion order. -/
def QUERY_PHRASE_EXPANSIONS : List (String × List String) :=
  [("it law", IT_LAW_EXPANSIONS)]

/-- `LEGAL_SYNONYMS` in insertion order. -/
def LEGAL_SYNONYMS : List (String × List String) :=
  [("liability", ["liable", "responsible", "accountability", "obligation"]),
   ("indemnity", ["indemnification", "indemnify", "indemnification clause"]),
   ("breach", ["violation", "non-compliance", "default", "infringement"]),
   ("termination", ["terminate", "ending", "cancellation", "cessation"]),
   ("confidential", ["confidentiality", "secret", "proprietary", "non-disclosure"]),
   ("clause", ["section", "article", "provision", "condition", "term"]),
   ("penalty", ["penality", "fine", "damages", "liquidated damages"]),
   ("jurisdiction", ["jurisdiction", "governing law", "applicable law"]),
   ("liability cap", ["limitation of liability", "liability limit", "cap on damages"]),
   ("force majeure", ["act of god", "unforeseen circumstances"])]

/-- The `typo_corrections` table of `_correct_query_spelling`, in insertion
order (several entries are identity rewrites in the source). -/
def TYPO_CORRECTIONS : List (String × String) :=
  [("liabl", "liable"), ("indemnity", "indemnity"), ("breatch", "breach"),
   ("termiate", "terminate"), ("clause", "clause"), ("pennalty", "penalty"),
   ("jurisdiction", "jurisdiction")]

/-- `_correct_query_spelling(query)` (lines 154-197): lower-case, then apply
each word-boundary substitution in table order. -/
def _correct_query_spelling (query : String) : String :=
  TYPO_CORRECTIONS.foldl (fun acc pr => wbSubS acc pr.1 pr.2) (pyLowerS query)

/-- `_extract_query_terms(query)` (lines 846-924): returns
`(query_terms, expanded_phrases)`. -/
def _extract_query_terms (query : String) : List String × List String :=
  let normalized := pyStrip (pyLower (_correct_query_spelling query).data)
  let tokens := tokenRuns normalized
  let query_terms := tokens.filter (fun t => 2 < t.length && !(STOP_WORDS.contains t))
  let expanded1 := QUERY_PHRASE_EXPANSIONS.foldl
    (fun acc pr => if listContainsSub pr.1.data normalized then acc ++ pr.2 else acc) []
  let expanded2 :=
    if tokens.contains "it" && !(expanded1.contains "information technology") then
      expanded1 ++ IT_LAW_EXPANSIONS
    else expanded1
  let expanded3 := query_terms.foldl
    (fun acc t =>
      match LEGAL_SYNONYMS.lookup t with
      | some syns => acc ++ syns
      | none => acc)
    expanded2
  (query_terms, expanded3)

/-! ### Hybrid ranking (`_rank_candidates`, lines 1130-1285) -/

/-- A transient scored candidate: the dict built in `_rank_candidates`. -/
structure Candidate where
  combined_score : ℚ
  retrieval_confidence : ℚ
  lexical_hits : Nat
  clause : String
  source : String
deriving DecidableEq

/-- Keyword hits: the count of query terms occurring in the lower-cased
clause. -/
def keywordHitCount (terms : List String) (loweredClause : String) : Nat :=
  (terms.filter (fun t => containsSub loweredClause t)).length

/-- Phrase hits: the count of expansion phrases occurring in the lower-cased
clause. -/
def phraseHitCount (phrases : List String) (loweredClause : String) : Nat :=
  (phrases.filter (fun p => containsSub loweredClause p)).length

/-- The candidate built for one FAISS search result `(distance, chunk_idx)`
landing on a valid position. -/
def mkCandidate {V : Type} (s : Store V) (terms phrases : List String)
    (distance : ℚ) (idx : Nat) : Candidate :=
  let clause := s.chunks_store.getD idx ""
  let source := s.chunk_sources.getD idx "unknown"
  let lowered := pyLowerS clause
  let confidence := 1 / (1 + distance)
  let keyword_hits := keywordHitCount terms lowered
  let phrase_hits := phraseHitCount phrases lowered
  let keyword_boost := min (15 / 100 : ℚ) (keyword_hits * (4 / 100) + phrase_hits * (6 / 100))
  let source_bonus : ℚ := if source = "legal_qa" then 3 / 100 else 0
  { combined_score := confidence * (82 / 100) + keyword_boost + source_bonus
    retrieval_confidence := confidence
    lexical_hits := keyword_hits + phrase_hits
    clause := clause
    source := source }

/-- The scoring loop over `zip(distances[0], indices[0])`: positions outside
`[0, len(chunks_store))` are skipped. -/
def genCandidates {V : Type} (s : Store V) (terms phrases : List String) :
    List (ℚ × Int) → List Candidate
  | [] => []
  | (distance, i) :: rest =>
    if i < 0 ∨ (s.chunks_store.length : Int) ≤ i then
      genCandidates s terms phrases rest
    else
      mkCandidate s terms phrases distance i.toNat :: genCandidates s terms phrases rest

/-- The comparison of `ranked.sort(key=lambda row: row["combined_score"],
reverse=True)`: descending by combined score. -/
def candidateGE (x y : Candidate) : Prop := y.combined_score ≤ x.combined_score

instance : DecidableRel candidateGE :=
  fun x y => inferInstanceAs (Decidable (y.combined_score ≤ x.combined_score))

instance : IsTotal Candidate candidateGE :=
  ⟨fun a b => le_total b.combined_score a.combined_score⟩

instance : IsTrans Candidate candidateGE :=
  ⟨fun _ _ _ h1 h2 => le_trans h2 h1⟩

/-- `_rank_candidates(query)` (lines 1130-1285), with the FAISS search
results passed in as `results`.  Python's `list.sort` is a stable sort;
`List.insertionSort` is a stable sort with the same comparison, hence the
same function. -/
def _rank_candidates {V : Type} (s : Store V) (results : List (ℚ × Int))
    (query : String) : List Candidate :=
  if s.index.isNone || ntotal s.index == 0 || s.chunks_store.isEmpty then []
  else
    let tp := _extract_query_terms query
    List.insertionSort candidateGE (genCandidates s tp.1 tp.2 results)

/-! ### Retrieval orchestration (`retrieve_clause`, lines 1340-1501) -/

/-- The merged dual-source context string (lines 1484-1487). -/
def mergedContext (kbClause bestSource bestClause : String) : String :=
  "Knowledge Base Context:\n" ++ kbClause ++ "\n\n" ++
    "Additional Retrieved Context (" ++
    (if bestSource = "upload" then "Uploaded Document" else "Knowledge Base") ++
    "):\n" ++ bestClause

/-- `retrieve_clause(query)` (lines 1340-1501): the three-tier retrieval with
adaptive confidence gating and the dual-source merge, with FAISS search
results passed in as `results`. -/
def retrieve_clause {V : Type} (s : Store V) (results : List (ℚ × Int))
    (query : String) : Option String × Option ℚ :=
  match _find_legal_reference_match s query with
  | some m => (some m.clause, some m.retrieval_confidence)
  | none =>
    match _find_exact_question_match s query with
    | some exact => (some exact, some (99 / 100))
    | none =>
      match _rank_candidates s results query with
      | [] => (none, none)
      | best :: rest =>
        let rounded := round2 best.retrieval_confidence
        let confidence_threshold :=
          if best.lexical_hits = 0 then MIN_CONFIDENCE_SCORE
          else LEGAL_REFERENCE_CONFIDENCE_THRESHOLD
        if best.retrieval_confidence < confidence_threshold then
          (none, some rounded)
        else
          match (best :: rest).find? (fun c => c.source == "legal_qa") with
          | some kb =>
            if kb.clause ≠ best.clause then
              if MIN_CONFIDENCE_SCORE ≤ kb.retrieval_confidence ∨ 0 < kb.lexical_hits then
                (some (mergedContext kb.clause best.source best.clause),
                  some (round2 (max best.retrieval_confidence kb.retrieval_confidence)))
              else (some best.clause, some rounded)
            else (some best.clause, some rounded)
          | none => (some best.clause, some rounded)

/-! ### Persistence (`load_index` lines 637-737,
`initialize_vector_db_from_legal_qa` lines 742-841)

Files are modelled as `Option (Except Unit _)`: `none` is a missing file,
`Except.error ()` a read/parse failure (the exception `faiss.read_index` or
`json.load` would raise), `Except.ok` a parsed value.  The functions return
`Except Unit (Bool × Store V)`: `Except.error` models an uncaught Python
exception propagating to the caller. -/

/-- A parsed seed knowledge-base item (`{"question": …, "context": …}`,
missing keys read as `""` by `item.get(…, "")`). -/
structure SeedItem where
  question : String
  context : String
deriving DecidableEq

/-- The on-disk state seen by `load_index` and
`initialize_vector_db_from_legal_qa`.  `metadataFile` carries
`metadata.get("schema_version")` (`none` inside `Except.ok` when the key is
absent). -/
structure SnapshotFS (V : Type) where
  faissFile : Option (Except Unit (List V))
  chunksFile : Option (Except Unit (List String))
  sourcesFile : Option (Except Unit (List String))
  metadataFile : Option (Except Unit (Option Int))
  seedFile : Option (Except Unit (List SeedItem))

/-- `load_index()` (lines 637-737).  Note the source has no `try`/`except`:
a parse failure in the metadata, index, chunks or sources file is re-raised
to the caller (`Except.error`), not converted to `False`. -/
def load_index {V : Type} (fs : SnapshotFS V) (s : Store V) : Except Unit (Bool × Store V) :=
  match fs.faissFile, fs.chunksFile with
  | none, _ => .ok (false, s)
  | some _, none => .ok (false, s)
  | some faissRes, some chunksRes =>
    match fs.metadataFile with
    | none => .ok (false, s)
    | some (.error e) => .error e
    | some (.ok schemaVersion) =>
      if schemaVersion ≠ some INDEX_SCHEMA_VERSION then .ok (false, s)
      else
        match faissRes with
        | .error e => .error e
        | .ok loadedIndex =>
          match chunksRes with
          | .error e => .error e
          | .ok loadedChunks =>
            match (match fs.sourcesFile with
                   | some (.error e) => Except.error e
                   | some (.ok ls) => Except.ok ls
                   | none => Except.ok (List.replicate loadedChunks.length "unknown")) with
            | .error e => .error e
            | .ok loadedSources =>
              if loadedIndex.length = 0 ∨ loadedChunks = [] ∨
                  loadedIndex.length ≠ loadedChunks.length ∨
                  loadedSources.length ≠ loadedChunks.length then
                .ok (false, s)
              else .ok (true, ⟨some loadedIndex, loadedChunks, loadedSources⟩)

/-- `initialize_vector_db_from_legal_qa()` (lines 742-841).  The `load_index`
call sits outside the `try` block, so its exceptions propagate; seed-file
read/parse failures inside the `try` are caught and become `False`. -/
def initialize_vector_db_from_legal_qa {V : Type} (embed : String → V) (fs : SnapshotFS V)
    (s : Store V) : Except Unit (Bool × Store V) :=
  match load_index fs s with
  | .error e => .error e
  | .ok (true, s1) => .ok (true, s1)
  | .ok (false, s1) =>
    match fs.seedFile with
    | none => .ok (false, s1)
    | some (.error _) => .ok (false, s1)
    | some (.ok data) =>
      let contexts := data.filterMap (fun item =>
        let context := pyStripS item.context
        if context = "" then none
        else
          let question := pyStripS item.question
          some (if question ≠ "" then "Question: " ++ question ++ "\nClause: " ++ context
                else context))
      if contexts.isEmpty then .ok (false, s1)
      else .ok (true, build_index embed contexts "legal_qa" s1)

/-! ### Cross-encoder reranker (`relevance_reranker.py`)

The BERT model and tokenizer are external artifacts; the module state is the
pair of flags (`_tokenizer`/`_model` both set, `_load_attempted`).  The
classifier itself is abstracted as a score function `score : query → clause →
relevance`, only consulted when the model loaded. -/

/-- The lazy-loading module state of `relevance_reranker.py`. -/
structure RerankerState where
  modelLoaded : Bool
  loadAttempted : Bool
deriving DecidableEq

/-- The state at process start: nothing loaded, no attempt made. -/
def initRerankerState : RerankerState := ⟨false, false⟩

/-- `_load_model()` (lines 68-141): `dirExists` is whether the model
directory exists at the configured path, `loadSucceeds` whether
`from_pretrained` would succeed on its contents. -/
def _load_model (dirExists loadSucceeds : Bool) (st : RerankerState) : Bool × RerankerState :=
  if st.modelLoaded then (true, st)
  else if st.loadAttempted then (false, st)
  else
    let st2 : RerankerState := ⟨st.modelLoaded, true⟩
    if !dirExists then (false, st2)
    else if loadSucceeds then (true, ⟨true, true⟩)
    else (false, st2)

/-- The result row built for each scored candidate. -/
structure RerankRow where
  clause : String
  source : String
  retrieval_confidence : ℚ
  reranker_score : ℚ
deriving DecidableEq

/-- The scoring loop of `rerank_candidates`: skip empty clauses, track the
best row by strict improvement of `reranker_score`. -/
def rerankLoop (score : String → String → ℚ) (query : String) :
    List Candidate → Option RerankRow → Option RerankRow
  | [], best => best
  | cand :: rest, best =>
    if cand.clause = "" then rerankLoop score query rest best
    else
      let row : RerankRow :=
        ⟨cand.clause, cand.source, cand.retrieval_confidence, score query cand.clause⟩
      let best2 :=
        match best with
        | none => some row
        | some b => if b.reranker_score < row.reranker_score then some row else some b
      rerankLoop score query rest best2

/-- `rerank_candidates(query, candidates, min_score)` (lines 148-280),
returning the selected row (or `none`) and the updated module state. -/
def rerank_candidates (dirExists loadSucceeds : Bool) (score : String → String → ℚ)
    (relevanceThreshold : ℚ) (min_score : Option ℚ) (query : String)
    (candidates : List Candidate) (st : RerankerState) : Option RerankRow × RerankerState :=
  if candidates.isEmpty then (none, st)
  else
    match _load_model dirExists loadSucceeds st with
    | (false, st2) => (none, st2)
    | (true, st2) =>
      let threshold := min_score.getD relevanceThreshold
      match rerankLoop score query candidates none with
      | none => (none, st2)
      | some best =>
        if best.reranker_score < threshold then (none, st2) else (some best, st2)

/-- A sequence of `rerank_candidates` calls against the evolving module
state, collecting the outputs. -/
def runRerankCalls (dirExists loadSucceeds : Bool) (score : String → String → ℚ)
    (relevanceThreshold : ℚ) :
    List (Option ℚ × String × List Candidate) → RerankerState →
      List (Option RerankRow) × RerankerState
  | [], st => ([], st)
  | (ms, q, cands) :: calls, st =>
    let r := rerank_candidates dirExists loadSucceeds score relevanceThreshold ms q cands st
    let rest := runRerankCalls dirExists loadSucceeds score relevanceThreshold calls r.2
    (r.1 :: rest.1, rest.2)

/-! ## Theorems -/

/-! ### C1: the parallel-store alignment invariant -/

theorem aligned_emptyStore (V : Type) : aligned (emptyStore V) := ⟨rfl, rfl⟩

theorem aligned_build_index {V : Type} (embed : String → V) (chunks : List String)
    (source : String) (s : Store V) : aligned (build_index embed chunks source s) := by
  unfold build_index
  by_cases h : (cleanChunks chunks).isEmpty
  · simp [h, aligned, ntotal]
  · simp [h, aligned, ntotal]

theorem aligned_add_chunks {V : Type} (embed : String → V) (chunks : List String)
    (source : String) (s : Store V) (hs : aligned s) :
    aligned (add_chunks embed chunks source s).2 := by
  unfold add_chunks
  dsimp only
  by_cases h1 : (cleanChunks chunks).isEmpty = true
  · rw [if_pos h1]; exact hs
  · rw [if_neg h1]
    by_cases h2 : (s.index.isNone || ntotal s.index == 0 || s.chunks_store.isEmpty) = true
    · rw [if_pos h2]; exact aligned_build_index embed (cleanChunks chunks) source s
    · rw [if_neg h2]
      by_cases h3 : ((cleanChunks chunks).filter (fun c => !s.chunks_store.contains c)).isEmpty = true
      · rw [if_pos h3]; exact hs
      · rw [if_neg h3]
        obtain ⟨l, hl⟩ : ∃ l, s.index = some l := by
          cases hidx : s.index with
          | none => rw [hidx] at h2; simp at h2
          | some l => exact ⟨l, rfl⟩
        obtain ⟨hlen1, hlen2⟩ := hs
        rw [hl] at hlen2
        simp only [ntotal] at hlen2
        refine ⟨?_, ?_⟩ <;>
          simp [aligned, ntotal, hl, hlen1, hlen2, List.length_append, hlen1 ▸ hlen2]

theorem aligned_applyStoreOp {V : Type} (embed : String → V) (s : Store V) (op : StoreOp)
    (hs : aligned s) : aligned (applyStoreOp embed s op) := by
  cases op with
  | build chunks source => exact aligned_build_index embed chunks source s
  | add chunks source => exact aligned_add_chunks embed chunks source s hs

theorem aligned_applyStoreOps {V : Type} (embed : String → V) (ops : List StoreOp) :
    ∀ s : Store V, aligned s → aligned (applyStoreOps embed ops s) := by
  induction ops with
  | nil => intro s hs; exact hs
  | cons op rest ih =>
    intro s hs
    exact ih _ (aligned_applyStoreOp embed s op hs)

/-- C1: for every sequence of `build_index` and `add_chunks` calls starting
from the empty store, the parallel stores stay aligned afterwards:
`len(chunks_store) == len(chunk_sources) ==` the number of vectors in the
FAISS index (taken as 0 when `index is None`). -/
theorem claim_C1_parallel_stores_alignment {V : Type} (embed : String → V)
    (ops : List StoreOp) : aligned (applyStoreOps embed ops (emptyStore V)) :=
  aligned_applyStoreOps embed ops (emptyStore V) (aligned_emptyStore V)

/-! ### C7: de-duplicating `add_chunks` is idempotent -/

theorem cleanChunks_single {x : String} (hx : pyStripS x = x) (hne : x ≠ "") :
    cleanChunks [x] = [x] := by
  simp [cleanChunks, hne, hx]

theorem add_chunks_single_new {V : Type} (embed : String → V) (s : Store V)
    (x src : String) (hx : pyStripS x = x) (hne : x ≠ "") (hmem : x ∉ s.chunks_store) :
    (add_chunks embed [x] src s).2.chunks_store.count x = 1 ∧
    x ∈ (add_chunks embed [x] src s).2.chunks_store ∧
    (add_chunks embed [x] src s).2.index.isNone = false ∧
    ntotal (add_chunks embed [x] src s).2.index ≠ 0 ∧
    (add_chunks embed [x] src s).2.chunks_store.isEmpty = false := by
  have hclean : cleanChunks [x] = [x] := cleanChunks_single hx hne
  unfold add_chunks
  dsimp only
  rw [hclean]
  rw [if_neg (by simp [hne])]
  by_cases h2 : (s.index.isNone || ntotal s.index == 0 || s.chunks_store.isEmpty) = true
  · rw [if_pos h2]
    unfold build_index
    dsimp only
    rw [hclean]
    rw [if_neg (by simp [hne])]
    refine ⟨by simp, by simp, by simp, by simp [ntotal, hne], by simp [hne]⟩
  · rw [if_neg h2]
    have hfilter : ([x].filter (fun c => !s.chunks_store.contains c)) = [x] := by
      simp [List.filter, hmem]
    rw [hfilter]
    rw [if_neg (by simp [hne])]
    refine ⟨?_, ?_, ?_, ?_, ?_⟩
    · simp [List.count_append, List.count_eq_zero.mpr hmem]
    · simp
    · simp
    · simp [ntotal]
    · simp [hne]

theorem add_chunks_duplicate {V : Type} (embed : String → V) (s : Store V)
    (x src : String) (hx : pyStripS x = x) (hne : x ≠ "") (hin : x ∈ s.chunks_store)
    (hidx : s.index.isNone = false) (hnt : ntotal s.index ≠ 0)
    (hsz : s.chunks_store.isEmpty = false) :
    add_chunks embed [x] src s = (0, s) := by
  have hclean : cleanChunks [x] = [x] := cleanChunks_single hx hne
  unfold add_chunks
  dsimp only
  rw [hclean]
  rw [if_neg (by simp [hne])]
  rw [if_neg (by simp [hidx, hnt, hsz])]
  have hfilter : ([x].filter (fun c => !s.chunks_store.contains c)) = [] := by
    simp [List.filter, hin]
  rw [hfilter]
  simp

/-- C7: adding the same non-empty, already-stripped text twice is idempotent.
For any text `x` not already stored, the first `add_chunks([x])` stores `x`
exactly once (whether by delegating to `build_index` or by appending), and a
second `add_chunks([x])` returns 0 and leaves the index, `chunks_store` and
`chunk_sources` unchanged; de-duplication is by exact string equality against
the stored texts. -/
theorem claim_C7_add_chunks_dedup_idempotent {V : Type} (embed : String → V) (s : Store V)
    (x source1 source2 : String) (hx : pyStripS x = x) (hne : x ≠ "")
    (hmem : x ∉ s.chunks_store) :
    (add_chunks embed [x] source1 s).2.chunks_store.count x = 1 ∧
    add_chunks embed [x] source2 (add_chunks embed [x] source1 s).2 =
      (0, (add_chunks embed [x] source1 s).2) := by
  obtain ⟨hcount, hin, hidx, hnt, hsz⟩ := add_chunks_single_new embed s x source1 hx hne hmem
  exact ⟨hcount, add_chunks_duplicate embed _ x source2 hx hne hin hidx hnt hsz⟩

/-- C7 witness: a concrete first and second `add_chunks` call on the empty
store. -/
theorem claim_C7_witness :
    (add_chunks (String.length) ["hello world"] "upload" (emptyStore Nat)).2.chunks_store.count
        "hello world" = 1 ∧
    add_chunks (String.length) ["hello world"] "upload"
        (add_chunks (String.length) ["hello world"] "upload" (emptyStore Nat)).2 =
      (0, (add_chunks (String.length) ["hello world"] "upload" (emptyStore Nat)).2) :=
  claim_C7_add_chunks_dedup_idempotent String.length (emptyStore Nat) "hello world"
    "upload" "upload" (by decide) (by decide) (by decide)

/-! ### C2: the legal-reference tier wins with confidence 0.95 -/

theorem findRefLoop_spec (sectionRef : String) (actName : Option String) (sources : List String) :
    ∀ (chunks : List String) (idx : Nat) (m : RefMatch),
      findRefLoop sectionRef actName sources chunks idx = some m →
      m.retrieval_confidence = 95 / 100 ∧
      ∃ i, chunks.get? i = some m.clause ∧ refMatchesChunk sectionRef actName m.clause = true ∧
        ∀ j < i, ∀ c, chunks.get? j = some c → refMatchesChunk sectionRef actName c = false := by
  intro chunks
  induction chunks with
  | nil => intro idx m h; simp [findRefLoop] at h
  | cons chunk rest ih =>
    intro idx m h
    unfold findRefLoop at h
    by_cases hq : refMatchesChunk sectionRef actName chunk = true
    · rw [if_pos hq] at h
      have hm : (⟨chunk, sources.getD idx "unknown", 95 / 100⟩ : RefMatch) = m :=
        Option.some.inj h
      subst hm
      refine ⟨rfl, 0, by simp, hq, ?_⟩
      intro j hj
      omega
    · rw [if_neg hq] at h
      obtain ⟨hconf, i, hi, hqi, hfirst⟩ := ih (idx + 1) m h
      refine ⟨hconf, i + 1, by simpa using hi, hqi, ?_⟩
      intro j hj c hc
      cases j with
      | zero =>
        have hcc : chunk = c := by simpa using hc
        subst hcc
        simpa using hq
      | succ k =>
        exact hfirst k (by omega) c (by simpa using hc)

/-- C2: for every query and store state, if the legal-reference matcher finds
a qualifying chunk then `retrieve_clause` returns the first qualifying chunk
in storage order with confidence exactly 0.95, regardless of what the
exact-question or semantic tiers would have returned. -/
theorem claim_C2_legal_reference_first_match {V : Type} (s : Store V)
    (results : List (ℚ × Int)) (query : String) (m : RefMatch)
    (h : _find_legal_reference_match s query = some m) :
    retrieve_clause s results query = (some m.clause, some (95 / 100)) ∧
    ∃ sectionRef actName,
      _extract_legal_reference query = (some sectionRef, actName) ∧
      ∃ i, s.chunks_store.get? i = some m.clause ∧
        refMatchesChunk sectionRef actName m.clause = true ∧
        ∀ j < i, ∀ c, s.chunks_store.get? j = some c →
          refMatchesChunk sectionRef actName c = false := by
  have h0 := h
  unfold _find_legal_reference_match at h
  cases hext : _extract_legal_reference query with
  | mk osec act =>
    rw [hext] at h
    cases osec with
    | none => simp at h
    | some sectionRef =>
      obtain ⟨hconf, i, hi, hq, hfirst⟩ :=
        findRefLoop_spec sectionRef act s.chunk_sources s.chunks_store 0 m h
      constructor
      · unfold retrieve_clause
        rw [h0]
        simp [hconf]
      · exact ⟨sectionRef, act, rfl, i, hi, hq, hfirst⟩

/-- C2 witness: a store where the second chunk holds "Section 5" and
"Sample Act", queried with an explicit reference; the legal-reference tier
returns it at confidence 0.95 even though the supplied semantic results rank
the other chunk first. -/
theorem claim_C2_witness :
    retrieve_clause
        (⟨some [0, 1],
          ["Intro text.", "Section 5 of the Sample Act: damages apply."],
          ["upload", "legal_qa"]⟩ : Store Nat)
        [((0 : ℚ), (0 : Int)), ((1 : ℚ), (1 : Int))]
        "What is section 5 of the sample act?" =
      (some "Section 5 of the Sample Act: damages apply.", some (95 / 100)) :=
  (claim_C2_legal_reference_first_match
    (⟨some [0, 1],
      ["Intro text.", "Section 5 of the Sample Act: damages apply."],
      ["upload", "legal_qa"]⟩ : Store Nat)
    [((0 : ℚ), (0 : Int)), ((1 : ℚ), (1 : Int))]
    "What is section 5 of the sample act?"
    ⟨"Section 5 of the Sample Act: damages apply.", "legal_qa", 95 / 100⟩
    ((by decide!))).1

/-! ### C10: no out-of-range accesses in ranking and reference matching -/

theorem getD_mem_or_eq_default {α : Type} (l : List α) (n : Nat) (d : α) :
    l.getD n d ∈ l ∨ l.getD n d = d := by
  cases h : l.get? n with
  | none => right; rw [List.getD_eq_get?, h]; rfl
  | some v =>
    left
    rw [List.getD_eq_get?, h]
    exact List.get?_mem h

theorem genCandidates_skip_invalid {V : Type} (s : Store V) (terms phrases : List String) :
    ∀ results : List (ℚ × Int),
      genCandidates s terms phrases results =
        genCandidates s terms phrases
          (results.filter
            (fun r => !(decide (r.2 < 0) || decide ((s.chunks_store.length : Int) ≤ r.2)))) := by
  intro results
  induction results with
  | nil => rfl
  | cons r rest ih =>
    obtain ⟨d, i⟩ := r
    by_cases h : i < 0 ∨ (s.chunks_store.length : Int) ≤ i
    · rw [genCandidates, if_pos h, ih, List.filter_cons]
      have : (!(decide (i < 0) || decide ((s.chunks_store.length : Int) ≤ i))) = false := by
        rcases h with h | h <;> simp [h]
      rw [this]
      simp
    · rw [genCandidates, if_neg h, List.filter_cons]
      have : (!(decide (i < 0) || decide ((s.chunks_store.length : Int) ≤ i))) = true := by
        push_neg at h
        simp [h.1, h.2, not_le.mpr h.2, not_lt.mpr (le_of_lt h.2)]
      rw [this]
      simp only [genCandidates]
      rw [if_neg h, ih]

theorem genCandidates_mem_safe {V : Type} (s : Store V) (terms phrases : List String) :
    ∀ (results : List (ℚ × Int)) (c : Candidate), c ∈ genCandidates s terms phrases results →
      c.clause ∈ s.chunks_store ∧ (c.source ∈ s.chunk_sources ∨ c.source = "unknown") := by
  intro results
  induction results with
  | nil => intro c hc; simp [genCandidates] at hc
  | cons r rest ih =>
    obtain ⟨d, i⟩ := r
    intro c hc
    rw [genCandidates] at hc
    by_cases h : i < 0 ∨ (s.chunks_store.length : Int) ≤ i
    · rw [if_pos h] at hc
      exact ih c hc
    · rw [if_neg h] at hc
      rcases List.mem_cons.mp hc with hc | hc
      · subst hc
        push_neg at h
        have hlt : i.toNat < s.chunks_store.length := by omega
        constructor
        · show s.chunks_store.getD i.toNat "" ∈ s.chunks_store
          rw [List.getD_eq_getElem?_getD, List.getElem?_eq_getElem hlt]
          exact List.getElem_mem hlt
        · exact getD_mem_or_eq_default s.chunk_sources i.toNat "unknown"
      · exact ih c hc

theorem findRefLoop_safe (sectionRef : String) (actName : Option String) (sources : List String) :
    ∀ (chunks : List String) (idx : Nat) (m : RefMatch),
      findRefLoop sectionRef actName sources chunks idx = some m →
      m.clause ∈ chunks ∧ (m.source ∈ sources ∨ m.source = "unknown") := by
  intro chunks
  induction chunks with
  | nil => intro idx m h; simp [findRefLoop] at h
  | cons chunk rest ih =>
    intro idx m h
    unfold findRefLoop at h
    by_cases hq : refMatchesChunk sectionRef actName chunk = true
    · rw [if_pos hq] at h
      have hm : (⟨chunk, sources.getD idx "unknown", 95 / 100⟩ : RefMatch) = m :=
        Option.some.inj h
      subst hm
      exact ⟨List.mem_cons_self _ _, getD_mem_or_eq_default sources idx "unknown"⟩
    · rw [if_neg hq] at h
      obtain ⟨h1, h2⟩ := ih (idx + 1) m h
      exact ⟨List.mem_cons_of_mem _ h1, h2⟩

/-- C10: for every store state — including legacy states where
`chunk_sources` is shorter than `chunks_store` — `_rank_candidates` and
`_find_legal_reference_match` never perform an out-of-range access: FAISS
result positions outside `[0, len(chunks_store))` are skipped (dropping them
from the search results leaves the ranking unchanged), every produced
candidate's clause is a stored chunk, and a position with no corresponding
source entry yields the source tag "unknown" rather than a failure. -/
theorem claim_C10_index_access_safety {V : Type} (s : Store V) (results : List (ℚ × Int))
    (query : String) :
    _rank_candidates s results query =
      _rank_candidates s
        (results.filter
          (fun r => !(decide (r.2 < 0) || decide ((s.chunks_store.length : Int) ≤ r.2)))) query ∧
    (∀ c ∈ _rank_candidates s results query,
      c.clause ∈ s.chunks_store ∧ (c.source ∈ s.chunk_sources ∨ c.source = "unknown")) ∧
    (∀ m : RefMatch, _find_legal_reference_match s query = some m →
      m.clause ∈ s.chunks_store ∧ (m.source ∈ s.chunk_sources ∨ m.source = "unknown")) := by
  refine ⟨?_, ?_, ?_⟩
  · unfold _rank_candidates
    by_cases hguard : (s.index.isNone || ntotal s.index == 0 || s.chunks_store.isEmpty) = true
    · rw [if_pos hguard, if_pos hguard]
    · rw [if_neg hguard, if_neg hguard]
      dsimp only
      rw [← genCandidates_skip_invalid]
  · intro c hc
    unfold _rank_candidates at hc
    by_cases hguard : (s.index.isNone || ntotal s.index == 0 || s.chunks_store.isEmpty) = true
    · rw [if_pos hguard] at hc
      simp at hc
    · rw [if_neg hguard] at hc
      have := (List.perm_insertionSort candidateGE _).mem_iff.mp hc
      exact genCandidates_mem_safe s _ _ results c this
  · intro m hm
    unfold _find_legal_reference_match at hm
    cases hext : _extract_legal_reference query with
    | mk osec act =>
      rw [hext] at hm
      cases osec with
      | none => simp at hm
      | some sectionRef => exact findRefLoop_safe sectionRef act s.chunk_sources _ 0 m hm

/-! ### C6: the hybrid scoring formula and descending sort order -/

theorem genCandidates_elem_shape {V : Type} (s : Store V) (terms phrases : List String) :
    ∀ (results : List (ℚ × Int)) (c : Candidate), c ∈ genCandidates s terms phrases results →
      ∃ d : ℚ, ∃ i : Int, (d, i) ∈ results ∧ c = mkCandidate s terms phrases d i.toNat := by
  intro results
  induction results with
  | nil => intro c hc; simp [genCandidates] at hc
  | cons r rest ih =>
    obtain ⟨d, i⟩ := r
    intro c hc
    rw [genCandidates] at hc
    by_cases h : i < 0 ∨ (s.chunks_store.length : Int) ≤ i
    · rw [if_pos h] at hc
      obtain ⟨d2, i2, hmem, hshape⟩ := ih c hc
      exact ⟨d2, i2, List.mem_cons_of_mem _ hmem, hshape⟩
    · rw [if_neg h] at hc
      rcases List.mem_cons.mp hc with hc | hc
      · exact ⟨d, i, List.mem_cons_self _ _, hc⟩
      · obtain ⟨d2, i2, hmem, hshape⟩ := ih c hc
        exact ⟨d2, i2, List.mem_cons_of_mem _ hmem, hshape⟩

/-- C6: every candidate produced by the hybrid ranker carries a semantic
confidence equal to `1/(1+d)` for its FAISS distance `d`, and a combined
score equal to `confidence * 0.82 + min(0.15, keyword_hits * 0.04 +
phrase_hits * 0.06) + source_bonus` with a 0.03 bonus exactly for the
knowledge-base source `"legal_qa"`; the returned list is sorted in
descending order of combined score. -/
theorem claim_C6_hybrid_score_formula {V : Type} (s : Store V) (results : List (ℚ × Int))
    (query : String) :
    (∀ c ∈ _rank_candidates s results query,
      ∃ d : ℚ, (∃ i : Int, (d, i) ∈ results) ∧
        c.retrieval_confidence = 1 / (1 + d) ∧
        c.lexical_hits =
          keywordHitCount (_extract_query_terms query).1 (pyLowerS c.clause) +
            phraseHitCount (_extract_query_terms query).2 (pyLowerS c.clause) ∧
        c.combined_score =
          c.retrieval_confidence * (82 / 100) +
            min (15 / 100 : ℚ)
              ((keywordHitCount (_extract_query_terms query).1 (pyLowerS c.clause) : ℚ) * (4 / 100) +
                (phraseHitCount (_extract_query_terms query).2 (pyLowerS c.clause) : ℚ) * (6 / 100)) +
            (if c.source = "legal_qa" then (3 / 100 : ℚ) else 0)) ∧
    (_rank_candidates s results query).Sorted
      (fun a b => b.combined_score ≤ a.combined_score) := by
  constructor
  · intro c hc
    unfold _rank_candidates at hc
    by_cases hguard : (s.index.isNone || ntotal s.index == 0 || s.chunks_store.isEmpty) = true
    · rw [if_pos hguard] at hc
      simp at hc
    · rw [if_neg hguard] at hc
      dsimp only at hc
      have hmem := (List.perm_insertionSort candidateGE _).mem_iff.mp hc
      obtain ⟨d, i, hdi, rfl⟩ :=
        genCandidates_elem_shape s (_extract_query_terms query).1 (_extract_query_terms query).2
          results c hmem
      exact ⟨d, ⟨i, hdi⟩, rfl, rfl, rfl⟩
  · unfold _rank_candidates
    by_cases hguard : (s.index.isNone || ntotal s.index == 0 || s.chunks_store.isEmpty) = true
    · rw [if_pos hguard]
      exact List.sorted_nil
    · rw [if_neg hguard]
      dsimp only
      exact List.sorted_insertionSort candidateGE _

/-! ### C3: the adaptive confidence gate of the semantic tier -/

/-- C3: in the semantic tier, the gate applied to the best candidate is 0.30
with zero lexical hits and 0.25 with at least one; below the applicable
threshold `retrieve_clause` returns `(none, confidence rounded to two
decimals)`, and at or above it a clause is returned — the best clause itself,
or the dual-source merged context containing it. -/
theorem claim_C3_semantic_confidence_gate {V : Type} (s : Store V) (results : List (ℚ × Int))
    (query : String) (best : Candidate) (rest : List Candidate)
    (h1 : _find_legal_reference_match s query = none)
    (h2 : _find_exact_question_match s query = none)
    (h3 : _rank_candidates s results query = best :: rest) :
    (best.retrieval_confidence < (if best.lexical_hits = 0 then (30 : ℚ) / 100 else 25 / 100) →
      retrieve_clause s results query = (none, some (round2 best.retrieval_confidence))) ∧
    ((if best.lexical_hits = 0 then (30 : ℚ) / 100 else 25 / 100) ≤ best.retrieval_confidence →
      ((retrieve_clause s results query).1 = some best.clause ∨
        ∃ kb, kb ∈ best :: rest ∧ kb.source = "legal_qa" ∧
          (retrieve_clause s results query).1 =
            some (mergedContext kb.clause best.source best.clause))) := by
  unfold retrieve_clause
  rw [h1, h2, h3]
  dsimp only
  constructor
  · intro hlt
    rw [if_pos (show best.retrieval_confidence <
        (if best.lexical_hits = 0 then MIN_CONFIDENCE_SCORE
         else LEGAL_REFERENCE_CONFIDENCE_THRESHOLD) from hlt)]
  · intro hge
    rw [if_neg (not_lt.mpr (show (if best.lexical_hits = 0 then MIN_CONFIDENCE_SCORE
        else LEGAL_REFERENCE_CONFIDENCE_THRESHOLD) ≤ best.retrieval_confidence from hge))]
    cases hkb : (best :: rest).find? (fun c => c.source == "legal_qa") with
    | none => left; rfl
    | some kb =>
      have hkbmem : kb ∈ best :: rest := List.mem_of_find?_eq_some hkb
      have hkbsrc : kb.source = "legal_qa" := by
        have := List.find?_some hkb
        simpa using this
      dsimp only
      by_cases hne : kb.clause ≠ best.clause
      · rw [if_pos hne]
        by_cases hbar : MIN_CONFIDENCE_SCORE ≤ kb.retrieval_confidence ∨ 0 < kb.lexical_hits
        · rw [if_pos hbar]
          right
          exact ⟨kb, hkbmem, hkbsrc, rfl⟩
        · rw [if_neg hbar]
          left
          rfl
      · rw [if_neg hne]
        left
        rfl

/-- C3 witness: a one-chunk store where the best semantic candidate has
confidence 0.28 and no lexical hits, so the 0.30 gate rejects it and
`retrieve_clause` returns `(none, 0.28)`. -/
theorem claim_C3_witness :
    retrieve_clause (⟨some [0], ["alpha beta gamma"], ["upload"]⟩ : Store Nat)
        [((18 / 7 : ℚ), (0 : Int))] "payment obligations overview" =
      (none, some (round2 (7 / 25))) :=
  (claim_C3_semantic_confidence_gate
    (⟨some [0], ["alpha beta gamma"], ["upload"]⟩ : Store Nat)
    [((18 / 7 : ℚ), (0 : Int))] "payment obligations overview"
    ⟨287 / 1250, 7 / 25, 0, "alpha beta gamma", "upload"⟩ []
    ((by decide!))
    ((by decide!))
    ((by decide!))).1
    (by norm_num)

/-! ### C4 (corrected): the dual-source merge bar is 0.30, not 0.25, and is
tested on the first knowledge-base candidate in ranked order -/

/-- C4 counterexample: the best candidate (an upload, confidence 0.4) passes
the gate and the ranked list contains a knowledge-base candidate with a
different clause whose confidence 2/7 clears the claimed lenient bar (0.25)
— yet `retrieve_clause`
returns the plain best clause, not the merged context, because the code
tests `kb_confidence >= MIN_CONFIDENCE_SCORE` (0.30). -/
theorem claim_C4_counterexample :
    _rank_candidates (⟨some [0, 1], ["alpha beta", "gamma delta"], ["upload", "legal_qa"]⟩ :
          Store Nat)
        [((3 / 2 : ℚ), (0 : Int)), ((5 / 2 : ℚ), (1 : Int))] "random words here" =
      [⟨41 / 125, 2 / 5, 0, "alpha beta", "upload"⟩,
        ⟨37 / 140, 2 / 7, 0, "gamma delta", "legal_qa"⟩] ∧
    ((25 : ℚ) / 100 ≤ 2 / 7) ∧
    ("gamma delta" ≠ "alpha beta") ∧
    ((30 : ℚ) / 100 ≤ 2 / 5) ∧
    retrieve_clause (⟨some [0, 1], ["alpha beta", "gamma delta"], ["upload", "legal_qa"]⟩ :
          Store Nat)
        [((3 / 2 : ℚ), (0 : Int)), ((5 / 2 : ℚ), (1 : Int))] "random words here" =
      (some "alpha beta", some (2 / 5)) ∧
    (∀ conf : ℚ,
      retrieve_clause (⟨some [0, 1], ["alpha beta", "gamma delta"], ["upload", "legal_qa"]⟩ :
            Store Nat)
          [((3 / 2 : ℚ), (0 : Int)), ((5 / 2 : ℚ), (1 : Int))] "random words here" ≠
        (some (mergedContext "gamma delta" "upload" "alpha beta"), some conf)) := by
  have hres : retrieve_clause (⟨some [0, 1], ["alpha beta", "gamma delta"],
        ["upload", "legal_qa"]⟩ : Store Nat)
      [((3 / 2 : ℚ), (0 : Int)), ((5 / 2 : ℚ), (1 : Int))] "random words here" =
      (some "alpha beta", some (2 / 5)) := (by decide!)
  refine ⟨(by decide!), by norm_num, by decide, by norm_num,
    hres, ?_⟩
  intro conf h
  rw [hres] at h
  have h1 : (some "alpha beta" : Option String) =
      some (mergedContext "gamma delta" "upload" "alpha beta") := congrArg Prod.fst h
  exact absurd h1 (by decide)

/-- C4 amended: in the dual-source merge step, whenever the best-ranked
candidate passes the confidence gate and the first knowledge-base candidate
in ranked order has a clause different from the best clause and clears the
code's bar — semantic confidence at or above `MIN_CONFIDENCE_SCORE` (0.30,
not the lenient 0.25 the claim states), or at least one lexical hit — the
returned value is the merged context under labelled headings with confidence
the maximum of the two semantic confidences rounded to two decimals. -/
theorem claim_C4_dual_source_merge {V : Type} (s : Store V) (results : List (ℚ × Int))
    (query : String) (best : Candidate) (rest : List Candidate) (kb : Candidate)
    (h1 : _find_legal_reference_match s query = none)
    (h2 : _find_exact_question_match s query = none)
    (h3 : _rank_candidates s results query = best :: rest)
    (hgate : (if best.lexical_hits = 0 then (30 : ℚ) / 100 else 25 / 100) ≤
      best.retrieval_confidence)
    (hkb : (best :: rest).find? (fun c => c.source == "legal_qa") = some kb)
    (hne : kb.clause ≠ best.clause)
    (hbar : (30 : ℚ) / 100 ≤ kb.retrieval_confidence ∨ 0 < kb.lexical_hits) :
    retrieve_clause s results query =
      (some (mergedContext kb.clause best.source best.clause),
        some (round2 (max best.retrieval_confidence kb.retrieval_confidence))) := by
  unfold retrieve_clause
  rw [h1, h2, h3]
  dsimp only
  rw [if_neg (not_lt.mpr (show (if best.lexical_hits = 0 then MIN_CONFIDENCE_SCORE
      else LEGAL_REFERENCE_CONFIDENCE_THRESHOLD) ≤ best.retrieval_confidence from hgate))]
  rw [hkb]
  dsimp only
  rw [if_pos hne]
  rw [if_pos (show MIN_CONFIDENCE_SCORE ≤ kb.retrieval_confidence ∨ 0 < kb.lexical_hits
    from hbar)]

/-- C4 witness: with the knowledge-base candidate at confidence 1/3
(clearing the 0.30 bar), the merged context is returned with the maximum of
the two confidences. -/
theorem claim_C4_witness :
    retrieve_clause (⟨some [0, 1], ["alpha beta", "gamma delta"], ["upload", "legal_qa"]⟩ :
          Store Nat)
        [((1 : ℚ), (0 : Int)), ((2 : ℚ), (1 : Int))] "random words here" =
      (some (mergedContext "gamma delta" "upload" "alpha beta"),
        some (round2 (max (1 / 2) (1 / 3)))) :=
  claim_C4_dual_source_merge
    (⟨some [0, 1], ["alpha beta", "gamma delta"], ["upload", "legal_qa"]⟩ : Store Nat)
    [((1 : ℚ), (0 : Int)), ((2 : ℚ), (1 : Int))] "random words here"
    ⟨41 / 100, 1 / 2, 0, "alpha beta", "upload"⟩
    [⟨91 / 300, 1 / 3, 0, "gamma delta", "legal_qa"⟩]
    ⟨91 / 300, 1 / 3, 0, "gamma delta", "legal_qa"⟩
    ((by decide!))
    ((by decide!))
    ((by decide!))
    (by norm_num)
    ((by decide!))
    (by decide)
    (by norm_num)

/-! ### C5 (corrected): the fuzzy question threshold is strict (> 0.85) -/

theorem findExactLoop_some_ne_none (nq : String) :
    ∀ (chunks : List String) (b : String) (bs : ℚ),
      findExactLoop nq chunks (some b) bs ≠ none := by
  intro chunks
  induction chunks with
  | nil => intro b bs h; simp [findExactLoop] at h
  | cons chunk rest ih =>
    intro b bs h
    rw [findExactLoop] at h
    cases hw : wrappedQuestion chunk with
    | none => rw [hw] at h; exact ih b bs h
    | some q =>
      rw [hw] at h
      dsimp only at h
      by_cases he : _normalize_lookup_text q = nq
      · rw [if_pos he] at h; exact Option.noConfusion h
      · rw [if_neg he] at h
        by_cases hlt : bs < ratioQ nq (_normalize_lookup_text q)
        · rw [if_pos hlt] at h; exact ih chunk _ h
        · rw [if_neg hlt] at h; exact ih b bs h

theorem findExactLoop_none_iff (nq : String) :
    ∀ (chunks : List String) (bs : ℚ),
      (∀ chunk ∈ chunks, ∀ q, wrappedQuestion chunk = some q →
        _normalize_lookup_text q ≠ nq) →
      (findExactLoop nq chunks none bs = none ↔
        ∀ chunk ∈ chunks, ∀ sc, chunkQuestionScore nq chunk = some sc → sc ≤ bs) := by
  intro chunks
  induction chunks with
  | nil => intro bs _; simp [findExactLoop]
  | cons chunk rest ih =>
    intro bs hno
    have hno_head := hno chunk (List.mem_cons_self _ _)
    have hno_rest : ∀ c ∈ rest, ∀ q, wrappedQuestion c = some q →
        _normalize_lookup_text q ≠ nq :=
      fun c hc => hno c (List.mem_cons_of_mem _ hc)
    rw [findExactLoop]
    cases hw : wrappedQuestion chunk with
    | none =>
      rw [ih bs hno_rest]
      constructor
      · intro hall c hc sc hsc
        rcases List.mem_cons.mp hc with rfl | hc
        · rw [chunkQuestionScore, hw] at hsc; exact Option.noConfusion hsc
        · exact hall c hc sc hsc
      · intro hall c hc sc hsc
        exact hall c (List.mem_cons_of_mem _ hc) sc hsc
    | some q =>
      dsimp only
      rw [if_neg (hno_head q hw)]
      by_cases hlt : bs < ratioQ nq (_normalize_lookup_text q)
      · rw [if_pos hlt]
        constructor
        · intro h; exact absurd h (findExactLoop_some_ne_none nq rest chunk _)
        · intro hall
          exact absurd (hall chunk (List.mem_cons_self _ _)
            (ratioQ nq (_normalize_lookup_text q)) (by rw [chunkQuestionScore, hw]; rfl))
            (not_le.mpr hlt)
      · rw [if_neg hlt]
        rw [ih bs hno_rest]
        constructor
        · intro hall c hc sc hsc
          rcases List.mem_cons.mp hc with rfl | hc
          · rw [chunkQuestionScore, hw] at hsc
            obtain rfl : ratioQ nq (_normalize_lookup_text q) = sc := Option.some.inj hsc
            exact not_lt.mp hlt
          · exact hall c hc sc hsc
        · intro hall c hc sc hsc
          exact hall c (List.mem_cons_of_mem _ hc) sc hsc

theorem findExactLoop_some_spec (nq : String) :
    ∀ (chunks : List String) (best : Option String) (bs : ℚ) (c : String),
      (∀ chunk ∈ chunks, ∀ q, wrappedQuestion chunk = some q →
        _normalize_lookup_text q ≠ nq) →
      findExactLoop nq chunks best bs = some c →
      (best = some c ∧ ∀ chunk ∈ chunks, ∀ sc,
        chunkQuestionScore nq chunk = some sc → sc ≤ bs) ∨
      (c ∈ chunks ∧ ∃ sc, chunkQuestionScore nq c = some sc ∧ bs < sc ∧
        ∀ chunk ∈ chunks, ∀ sc2, chunkQuestionScore nq chunk = some sc2 → sc2 ≤ sc) := by
  intro chunks
  induction chunks with
  | nil =>
    intro best bs c _ h
    rw [findExactLoop] at h
    subst h
    exact Or.inl ⟨rfl, by simp⟩
  | cons chunk rest ih =>
    intro best bs c hno h
    have hno_head := hno chunk (List.mem_cons_self _ _)
    have hno_rest : ∀ x ∈ rest, ∀ q, wrappedQuestion x = some q →
        _normalize_lookup_text q ≠ nq :=
      fun x hx => hno x (List.mem_cons_of_mem _ hx)
    rw [findExactLoop] at h
    cases hw : wrappedQuestion chunk with
    | none =>
      rw [hw] at h
      rcases ih best bs c hno_rest h with ⟨hb, hall⟩ | ⟨hc, sc, hsc, hgt, hall⟩
      · refine Or.inl ⟨hb, ?_⟩
        intro x hx sc hsc
        rcases List.mem_cons.mp hx with rfl | hx
        · rw [chunkQuestionScore, hw] at hsc; exact Option.noConfusion hsc
        · exact hall x hx sc hsc
      · refine Or.inr ⟨List.mem_cons_of_mem _ hc, sc, hsc, hgt, ?_⟩
        intro x hx sc2 hsc2
        rcases List.mem_cons.mp hx with rfl | hx
        · rw [chunkQuestionScore, hw] at hsc2; exact Option.noConfusion hsc2
        · exact hall x hx sc2 hsc2
    | some q =>
      rw [hw] at h
      dsimp only at h
      rw [if_neg (hno_head q hw)] at h
      by_cases hlt : bs < ratioQ nq (_normalize_lookup_text q)
      · rw [if_pos hlt] at h
        rcases ih (some chunk) (ratioQ nq (_normalize_lookup_text q)) c hno_rest h with
          ⟨hb, hall⟩ | ⟨hc, sc, hsc, hgt, hall⟩
        · obtain rfl : chunk = c := Option.some.inj hb
          refine Or.inr ⟨List.mem_cons_self _ _, ratioQ nq (_normalize_lookup_text q),
            by rw [chunkQuestionScore, hw]; rfl, hlt, ?_⟩
          intro x hx sc2 hsc2
          rcases List.mem_cons.mp hx with rfl | hx
          · rw [chunkQuestionScore, hw] at hsc2
            obtain rfl := Option.some.inj hsc2
            exact le_refl _
          · exact hall x hx sc2 hsc2
        · refine Or.inr ⟨List.mem_cons_of_mem _ hc, sc, hsc, lt_trans hlt hgt, ?_⟩
          intro x hx sc2 hsc2
          rcases List.mem_cons.mp hx with rfl | hx
          · rw [chunkQuestionScore, hw] at hsc2
            obtain rfl := Option.some.inj hsc2
            exact le_of_lt hgt
          · exact hall x hx sc2 hsc2
      · rw [if_neg hlt] at h
        rcases ih best bs c hno_rest h with ⟨hb, hall⟩ | ⟨hc, sc, hsc, hgt, hall⟩
        · refine Or.inl ⟨hb, ?_⟩
          intro x hx sc2 hsc2
          rcases List.mem_cons.mp hx with rfl | hx
          · rw [chunkQuestionScore, hw] at hsc2
            obtain rfl := Option.some.inj hsc2
            exact not_lt.mp hlt
          · exact hall x hx sc2 hsc2
        · refine Or.inr ⟨List.mem_cons_of_mem _ hc, sc, hsc, hgt, ?_⟩
          intro x hx sc2 hsc2
          rcases List.mem_cons.mp hx with rfl | hx
          · rw [chunkQuestionScore, hw] at hsc2
            obtain rfl := Option.some.inj hsc2
            exact le_of_lt (lt_of_le_of_lt (not_lt.mp hlt) hgt)
          · exact hall x hx sc2 hsc2

/-- C5 (amended): for every query with no exact normalised question match,
the exact-question matcher returns a stored wrapped chunk if and only if the
query normalises non-trivially and some wrapped chunk's question has a
similarity ratio STRICTLY greater than 0.85 to the normalised query — the
code compares `score > best_score` with `best_score` initialised to 0.85, so
a ratio of exactly 0.85 is rejected, against the claim's "greater than or
equal".  The returned chunk attains the maximum ratio, and `retrieve_clause`
then returns it with confidence 0.99. -/
theorem claim_C5_fuzzy_question_threshold {V : Type} (s : Store V) (query : String)
    (hno : ∀ chunk ∈ s.chunks_store, ∀ q, wrappedQuestion chunk = some q →
      _normalize_lookup_text q ≠ _normalize_lookup_text query) :
    (_find_exact_question_match s query = none ↔
      (_normalize_lookup_text query = "" ∨
        ∀ chunk ∈ s.chunks_store, ∀ sc,
          chunkQuestionScore (_normalize_lookup_text query) chunk = some sc →
            sc ≤ 85 / 100)) ∧
    (∀ c, _find_exact_question_match s query = some c →
      c ∈ s.chunks_store ∧
      ∃ sc, chunkQuestionScore (_normalize_lookup_text query) c = some sc ∧
        (85 : ℚ) / 100 < sc ∧
        ∀ chunk ∈ s.chunks_store, ∀ sc2,
          chunkQuestionScore (_normalize_lookup_text query) chunk = some sc2 → sc2 ≤ sc) ∧
    (∀ (results : List (ℚ × Int)) (c : String),
      _find_legal_reference_match s query = none →
      _find_exact_question_match s query = some c →
      retrieve_clause s results query = (some c, some (99 / 100))) := by
  by_cases hq : _normalize_lookup_text query = ""
  · refine ⟨?_, ?_, ?_⟩
    · constructor
      · intro _; exact Or.inl hq
      · intro _
        unfold _find_exact_question_match
        rw [if_pos hq]
    · intro c hc
      unfold _find_exact_question_match at hc
      rw [if_pos hq] at hc
      exact Option.noConfusion hc
    · intro results c _ hc
      unfold _find_exact_question_match at hc
      rw [if_pos hq] at hc
      exact Option.noConfusion hc
  · have hloop : _find_exact_question_match s query =
        findExactLoop (_normalize_lookup_text query) s.chunks_store none (85 / 100) := by
      unfold _find_exact_question_match
      rw [if_neg hq]
    refine ⟨?_, ?_, ?_⟩
    · rw [hloop, findExactLoop_none_iff _ s.chunks_store (85 / 100) hno]
      constructor
      · exact Or.inr
      · intro h
        rcases h with h | h
        · exact absurd h hq
        · exact h
    · intro c hc
      rw [hloop] at hc
      rcases findExactLoop_some_spec _ s.chunks_store none (85 / 100) c hno hc with
        ⟨hb, _⟩ | h2
      · exact Option.noConfusion hb
      · exact h2
    · intro results c h1 hc
      unfold retrieve_clause
      rw [h1]
      dsimp only
      rw [hc]

/-- C5 counterexample: a wrapped chunk whose question has similarity ratio
exactly 0.85 to the (non-matching) query.  The claim says a ratio at or above
0.85 is returned; the code rejects it (strict `>`), so the matcher returns
`none`. -/
theorem claim_C5_counterexample :
    wrappedQuestion "Question: abcdefghijklmnopquvw\nClause: some clause text" =
      some "abcdefghijklmnopquvw" ∧
    _normalize_lookup_text "abcdefghijklmnopquvw" ≠
      _normalize_lookup_text "abcdefghijklmnopqxyz" ∧
    ratioQ (_normalize_lookup_text "abcdefghijklmnopqxyz")
        (_normalize_lookup_text "abcdefghijklmnopquvw") = 17 / 20 ∧
    ((85 : ℚ) / 100 ≤ 17 / 20) ∧
    _find_exact_question_match
        (⟨some [0], ["Question: abcdefghijklmnopquvw\nClause: some clause text"],
          ["legal_qa"]⟩ : Store Nat)
        "abcdefghijklmnopqxyz" = none := by
  refine ⟨by decide, by decide, (by decide!), by norm_num,
    (by decide!)⟩

/-- C5 witness: a wrapped chunk whose question has ratio 0.95 (above the
strict threshold) to a non-identical query is returned by the matcher, and
`retrieve_clause` returns it with confidence 0.99. -/
theorem claim_C5_witness :
    retrieve_clause
        (⟨some [0], ["Question: abcdefghijklmnopqrsu\nClause: c text"], ["legal_qa"]⟩ :
          Store Nat)
        [] "abcdefghijklmnopqrst" =
      (some "Question: abcdefghijklmnopqrsu\nClause: c text", some (99 / 100)) :=
  (claim_C5_fuzzy_question_threshold
    (⟨some [0], ["Question: abcdefghijklmnopqrsu\nClause: c text"], ["legal_qa"]⟩ : Store Nat)
    "abcdefghijklmnopqrst"
    (by
      intro chunk hmem q hq
      have hchunk : chunk = "Question: abcdefghijklmnopqrsu\nClause: c text" := by
        simpa using hmem
      subst hchunk
      have hw : wrappedQuestion "Question: abcdefghijklmnopqrsu\nClause: c text" =
          some "abcdefghijklmnopqrsu" := by decide
      rw [hw] at hq
      obtain rfl := Option.some.inj hq
      decide)).2.2
    [] "Question: abcdefghijklmnopqrsu\nClause: c text"
    (by decide)
    ((by decide!))

/-! ### C8 (code bug): snapshot parse failures propagate out of `load_index` -/

/-- C8: the claim (and the docstrings of `load_index`) say any parse or read
failure while loading the persisted snapshot is caught and converted to a
`False` return.  The code has no `try`/`except` in `load_index`, so a
malformed `legal_qa_chunks.json` (with the index file readable and the
metadata valid at schema version 2) raises out of `load_index`, and since
`initialize_vector_db_from_legal_qa` calls `load_index()` outside its `try`
block, the exception propagates out of it as well.  Seed-file failures, by
contrast, are caught, and missing snapshot files are a clean `False`. -/
theorem claim_C8_load_index_parse_failure_propagates :
    load_index (⟨some (Except.ok [0]), some (Except.error ()), none,
        some (Except.ok (some 2)), none⟩ : SnapshotFS Nat) (emptyStore Nat) =
      Except.error () ∧
    initialize_vector_db_from_legal_qa String.length
        (⟨some (Except.ok [0]), some (Except.error ()), none,
          some (Except.ok (some 2)), none⟩ : SnapshotFS Nat) (emptyStore Nat) =
      Except.error () ∧
    load_index (⟨none, none, none, none, none⟩ : SnapshotFS Nat) (emptyStore Nat) =
      Except.ok (false, emptyStore Nat) ∧
    initialize_vector_db_from_legal_qa String.length
        (⟨none, none, none, none, some (Except.error ())⟩ : SnapshotFS Nat) (emptyStore Nat) =
      Except.ok (false, emptyStore Nat) := by
  refine ⟨rfl, rfl, rfl, rfl⟩

/-! ### C9: the reranker degrades gracefully when the artifact is absent -/

theorem rerank_candidates_not_loaded (loadSucceeds : Bool) (score : String → String → ℚ)
    (thr : ℚ) (ms : Option ℚ) (q : String) (cands : List Candidate) (st : RerankerState)
    (hm : st.modelLoaded = false) :
    (rerank_candidates false loadSucceeds score thr ms q cands st).1 = none ∧
    (rerank_candidates false loadSucceeds score thr ms q cands st).2.modelLoaded = false := by
  unfold rerank_candidates _load_model
  rw [hm]
  by_cases hc : cands.isEmpty
  · rw [if_pos hc]
    exact ⟨rfl, hm⟩
  · rw [if_neg hc]
    by_cases ha : st.loadAttempted
    · simp [ha, hm]
    · simp [ha, hm]

/-- C9: when the reranker model artifact is absent at the configured path
(`dirExists = false`), every `rerank_candidates` call in any sequence of
calls starting from the initial module state returns `none` — for every
query, candidate list and threshold override — and no call loads the model;
moreover once `_load_attempted` is set, a call short-circuits, returning
`none` and leaving the module state unchanged (the load is never retried). -/
theorem claim_C9_reranker_unavailable_returns_none (loadSucceeds : Bool)
    (score : String → String → ℚ) (thr : ℚ)
    (calls : List (Option ℚ × String × List Candidate)) :
    (∀ o ∈ (runRerankCalls false loadSucceeds score thr calls initRerankerState).1, o = none) ∧
    (runRerankCalls false loadSucceeds score thr calls initRerankerState).2.modelLoaded =
      false ∧
    (∀ (ms : Option ℚ) (q : String) (cands : List Candidate) (st : RerankerState),
      st.modelLoaded = false → st.loadAttempted = true →
      rerank_candidates false loadSucceeds score thr ms q cands st = (none, st)) := by
  have hgen : ∀ (calls : List (Option ℚ × String × List Candidate)) (st : RerankerState),
      st.modelLoaded = false →
      (∀ o ∈ (runRerankCalls false loadSucceeds score thr calls st).1, o = none) ∧
      (runRerankCalls false loadSucceeds score thr calls st).2.modelLoaded = false := by
    intro calls
    induction calls with
    | nil => intro st hm; exact ⟨by intro o ho; simp [runRerankCalls] at ho, hm⟩
    | cons call rest ih =>
      intro st hm
      obtain ⟨ms, q, cands⟩ := call
      obtain ⟨h1, h2⟩ := rerank_candidates_not_loaded loadSucceeds score thr ms q cands st hm
      obtain ⟨ih1, ih2⟩ := ih _ h2
      refine ⟨?_, ih2⟩
      intro o ho
      rw [runRerankCalls] at ho
      rcases List.mem_cons.mp ho with rfl | ho
      · exact h1
      · exact ih1 o ho
  obtain ⟨h1, h2⟩ := hgen calls initRerankerState rfl
  refine ⟨h1, h2, ?_⟩
  intro ms q cands st hm ha
  unfold rerank_candidates _load_model
  rw [hm, ha]
  by_cases hc : cands.isEmpty
  · rw [if_pos hc]
  · rw [if_neg hc]
    simp [hm]
